import Mathlib

deriving instance DecidableEq for Except

/-!
Shallow embedding of `scripts/export-history.py`, a Slack workspace export
tool.  The remote Slack API is modelled as a deterministic oracle (`Api`):
each endpoint is a function from the optional cursor parameter to either a
transport failure (the non-200 HTTP status code the Python `Client`
raises on) or a decoded JSON body, modelled as a typed record.  The loops
of the script are embedded with explicit fuel (`none` result = the loop
did not finish within the given fuel); every HTTP call and every file
system effect is recorded in an event trace, so that claims about "which
calls were made" and "which files were written" are provable statements.
-/

/-- One page of a cursor-paginated response: the `ok` flag, the payload
items (under `channels` / `members` keys in the JSON) and
`response_metadata.next_cursor`. -/
structure Page (α : Type) where
  ok : Bool
  items : List α
  next_cursor : String
deriving DecidableEq

/-- An attachment record (`msg["files"][i]`): MIME type and the
`thumb_<n>` keys, modelled as an association list from size to URL. -/
structure FileObj where
  mimetype : String
  thumbs : List (Nat × String)
deriving DecidableEq

/-- A message: epoch-seconds timestamp (`ts`), opaque body text, and the
optional `files` list. -/
structure Msg where
  ts : Nat
  text : String
  files : Option (List FileObj)
deriving DecidableEq

/-- One page of `conversations.history`: `ok`, `messages`, `has_more`,
and `response_metadata.next_cursor`. -/
structure HistPage where
  ok : Bool
  messages : List Msg
  has_more : Bool
  next_cursor : String
deriving DecidableEq

/-- Channel metadata as returned by `conversations.list`: `id`, `name`,
`is_archived`. -/
structure ChanMeta where
  id : String
  name : String
  is_archived : Bool
deriving DecidableEq

/-- A channel after `get_channels` has attached its `members` list. -/
structure Channel where
  meta : ChanMeta
  members : List String
deriving DecidableEq

/-- The body of `auth.test`: the `ok` flag and the caller's `user_id`. -/
structure AuthResp where
  ok : Bool
  user_id : String
deriving DecidableEq

/-- User records are passed through unmodified; model them as opaque ids. -/
abbrev UserRec := String

/-- The deterministic remote API oracle.  `Except.error s` models the
`RequestFailed` exception `Client._decode_response` raises when the HTTP
status code `s` is not 200; `Except.ok` carries the decoded body. -/
structure Api where
  auth_test : Except Nat AuthResp
  conversations_list : Option String → Except Nat (Page ChanMeta)
  conversations_members : String → Option String → Except Nat (Page String)
  conversations_history : String → Option String → Except Nat HistPage
  users_list : Option String → Except Nat (Page UserRec)

/-- The exceptions the script can die with: `transport s` is the
`RequestFailed` on HTTP status `s`; `apiNotOk` is the `RuntimeError`
raised on a body whose `ok` flag is false; `tokenInvalid` is the
`RuntimeError("token isn't valid")` in `main`. -/
inductive RunError
  | transport (status : Nat)
  | apiNotOk
  | tokenInvalid
deriving DecidableEq

/-- Content of a written file. -/
inductive FileContent
  | chans (cs : List Channel)
  | userList (us : List UserRec)
  | msgs (ms : List Msg)
deriving DecidableEq

/-- Observable events of a run: each HTTP call (with the cursor parameter
it passed, `none` = no cursor), each directory creation and each file
write. -/
inductive Ev
  | auth
  | listCall (cursor : Option String)
  | membersCall (channel : String) (cursor : Option String)
  | historyCall (channel : String) (cursor : Option String)
  | usersCall (cursor : Option String)
  | mkdir (path : String)
  | write (path : String) (content : FileContent)
deriving DecidableEq

/-- The cursor-exhaustion loop of `get_channels` (first loop) and
`get_users`:

    next_cursor = None
    while next_cursor != "":
        data = call(next_cursor)
        if not data["ok"]: raise RuntimeError(...)
        acc += data[items]
        next_cursor = data["response_metadata"]["next_cursor"]

`mk` tags the trace event for each call with the cursor it passed. -/
def fetchPagesT (call : Option String → Except Nat (Page α))
    (mk : Option String → Ev) :
    Nat → Option String → List α →
      Option (Except RunError (List α) × List Ev)
  | 0, cur, acc => if cur = some ("") then some (Except.ok acc, []) else none
  | Nat.succ fuel, cur, acc =>
    if cur = some ("") then some (Except.ok acc, [])
    else
      match call cur with
      | Except.error s => some (Except.error (RunError.transport s), [mk cur])
      | Except.ok p =>
        if p.ok then
          match fetchPagesT call mk fuel (some p.next_cursor) (acc ++ p.items) with
          | none => none
          | some (r, evs) => some (r, mk cur :: evs)
        else some (Except.error RunError.apiNotOk, [mk cur])

/-- The per-channel member loop of `get_channels`.  Faithful to the
source, which calls `cli.conversations_members(c["id"])` WITHOUT passing
`next_cursor`, and whose `try/except` observes the members accumulated so
far: the result carries the accumulated members together with the error,
if one was raised. -/
def membersLoopT (call : Option String → Except Nat (Page String))
    (mk : Option String → Ev) :
    Nat → Option String → List String →
      Option ((List String × Option RunError) × List Ev)
  | 0, cur, acc => if cur = some ("") then some ((acc, none), []) else none
  | Nat.succ fuel, cur, acc =>
    if cur = some ("") then some ((acc, none), [])
    else
      match call none with
      | Except.error s =>
        some ((acc, some (RunError.transport s)), [mk none])
      | Except.ok p =>
        if p.ok then
          match membersLoopT call mk fuel (some p.next_cursor) (acc ++ p.items) with
          | none => none
          | some (r, evs) => some (r, mk none :: evs)
        else some ((acc, some RunError.apiNotOk), [mk none])

/-- The has-more-flag loop of `get_messages`:

    next_cursor = None
    while next_cursor != "":
        data = call(next_cursor)
        if not data["ok"]: raise RuntimeError(...)
        acc += data["messages"]
        if not data["has_more"]: next_cursor = ""
        else: next_cursor = data["response_metadata"]["next_cursor"]
-/
def messagesLoopT (call : Option String → Except Nat HistPage)
    (mk : Option String → Ev) :
    Nat → Option String → List Msg →
      Option (Except RunError (List Msg) × List Ev)
  | 0, cur, acc => if cur = some ("") then some (Except.ok acc, []) else none
  | Nat.succ fuel, cur, acc =>
    if cur = some ("") then some (Except.ok acc, [])
    else
      match call cur with
      | Except.error s => some (Except.error (RunError.transport s), [mk cur])
      | Except.ok p =>
        if p.ok then
          match messagesLoopT call mk fuel
              (some (if p.has_more then p.next_cursor else "")) (acc ++ p.messages) with
          | none => none
          | some (r, evs) => some (r, mk cur :: evs)
        else some (Except.error RunError.apiNotOk, [mk cur])

/-- The member-retrieval step of `get_channels` for one channel `c`:
sets `c["members"] = []`, skips archived channels, otherwise runs the
member loop with every raised error caught and discarded (`except
Exception: pass`), keeping whatever members were accumulated. -/
def setMembersT (api : Api) (fuel : Nat) (c : ChanMeta) :
    Option (Channel × List Ev) :=
  if c.is_archived then some (⟨c, []⟩, [])
  else
    match membersLoopT (api.conversations_members c.id)
        (Ev.membersCall c.id) fuel none [] with
    | none => none
    | some ((acc, _), evs) => some (⟨c, acc⟩, evs)

/-- The `for c in channels` loop of `get_channels`, attaching members to
each channel in order. -/
def chansLoop (api : Api) (fuel : Nat) :
    List ChanMeta → Option (List Channel × List Ev)
  | [] => some ([], [])
  | c :: cs =>
    match setMembersT api fuel c with
    | none => none
    | some (ch, evs) =>
      match chansLoop api fuel cs with
      | none => none
      | some (chs, evs2) => some (ch :: chs, evs ++ evs2)

/-- `get_channels`: fetch all channel pages by cursor exhaustion, then
attach members to each channel. -/
def get_channelsT (api : Api) (fuel : Nat) :
    Option (Except RunError (List Channel) × List Ev) :=
  match fetchPagesT api.conversations_list Ev.listCall fuel none [] with
  | none => none
  | some (Except.error e, evs) => some (Except.error e, evs)
  | some (Except.ok metas, evs) =>
    match chansLoop api fuel metas with
    | none => none
    | some (chs, evs2) => some (Except.ok chs, evs ++ evs2)

/-- `get_users`: cursor-exhaustion pagination over `users.list` (whose
payload key is `members`). -/
def get_usersT (api : Api) (fuel : Nat) :
    Option (Except RunError (List UserRec) × List Ev) :=
  fetchPagesT api.users_list Ev.usersCall fuel none []

/-- `get_messages` for one channel: has-more-flag pagination over
`conversations.history`. -/
def get_messagesT (api : Api) (fuel : Nat) (c : Channel) :
    Option (Except RunError (List Msg) × List Ev) :=
  messagesLoopT (api.conversations_history c.meta.id)
    (Ev.historyCall c.meta.id) fuel none []

/-- Python dict assignment `d[k] = v`: replace the value at an existing
key in place, otherwise append the binding. -/
def dictSet (k : String) (v : List Msg) :
    List (String × List Msg) → List (String × List Msg)
  | [] => [(k, v)]
  | kv :: rest =>
    if kv.1 = k then (kv.1, v) :: rest else kv :: dictSet k v rest

/-- The message-collection loop of `main`:

    for channel in channels:
        if user["user_id"] in channel["members"]:
            messages[channel["name"]] = get_messages(cli, channel)
-/
def collectMessagesT (api : Api) (fuel : Nat) (uid : String) :
    List Channel → List (String × List Msg) →
      Option (Except RunError (List (String × List Msg)) × List Ev)
  | [], m => some (Except.ok m, [])
  | c :: cs, m =>
    if uid ∈ c.members then
      match get_messagesT api fuel c with
      | none => none
      | some (Except.error e, evs) => some (Except.error e, evs)
      | some (Except.ok ms, evs) =>
        match collectMessagesT api fuel uid cs (dictSet c.meta.name ms m) with
        | none => none
        | some (r, evs2) => some (r, evs ++ evs2)
    else collectMessagesT api fuel uid cs m

/-- The fixed list of thumbnail sizes iterated by
`append_download_token` (source order preserved). -/
def thumbSizes : List Nat := [64, 80, 360, 480, 160, 720, 800, 960, 1024]

/-- Python `s.startswith(pre)`, as a character-list prefix test. -/
def strStartsWith (s pre : String) : Bool :=
  List.isPrefixOf (pre.data) (s.data)

/-- The inner rewriting of one attachment: for each size in
`thumbSizes`, `f[f"thumb_{s}"] += f"?t={token}"` appends the suffix when
the key is present; a missing key raises `KeyError`, which is caught and
ignored (so absent keys are skipped, never added).  Only attachments
whose MIME type starts with `image` are touched. -/
def appendTokenFile (tok : String) (f : FileObj) : FileObj :=
  if strStartsWith (f.mimetype) ("image") then
    FileObj.mk f.mimetype
      (thumbSizes.foldl
        (fun ths s => ths.map
          (fun kv => if kv.1 = s then (kv.1, kv.2 ++ "?t=" ++ tok) else kv))
        f.thumbs)
  else f

/-- `append_download_token(msg, token)`: a message without a `files` key
is returned untouched; otherwise every attachment is rewritten by
`appendTokenFile`. -/
def append_download_token (tok : String) (m : Msg) : Msg :=
  match m.files with
  | none => m
  | some fs => Msg.mk m.ts m.text (some (fs.map (appendTokenFile tok)))

/-- Zero-padded two-digit rendering (`{:02}`). -/
def pad2 (n : Nat) : String :=
  if n < 10 then "0" ++ toString n else toString n

/-- Zero-padded four-digit rendering (`{:04}`). -/
def pad4 (n : Nat) : String :=
  if n < 10 then "000" ++ toString n
  else if n < 100 then "00" ++ toString n
  else if n < 1000 then "0" ++ toString n
  else toString n

/-- Proleptic-Gregorian civil date (year, month, day) from a count of
days since 1970-01-01, as `time.gmtime` computes it for non-negative
timestamps. -/
def civilFromDays (z : Nat) : Nat × Nat × Nat :=
  let doe := (z + 719468) % 146097
  let era := (z + 719468) / 146097
  let yoe := (doe - doe / 1460 + doe / 36524 - doe / 146096) / 365
  let y := yoe + era * 400
  let doy := doe - (365 * yoe + yoe / 4 - yoe / 100)
  let mp := (5 * doy + 2) / 153
  let d := doy - (153 * mp + 2) / 5 + 1
  let m := if mp < 10 then mp + 3 else mp - 9
  (if m ≤ 2 then y + 1 else y, m, d)

/-- The date key `f"{t.tm_year:04}-{t.tm_mon:02}-{t.tm_mday:02}"` of a
timestamp, with `t = time.gmtime(ts)`. -/
def dateKey (ts : Nat) : String :=
  let c := civilFromDays (ts / 86400)
  pad4 c.1 ++ "-" ++ pad2 c.2.1 ++ "-" ++ pad2 c.2.2

/-- Python `msgs[key].append(msg)` on a dict-of-lists with key-insertion
order: append to the existing bucket, or create a new bucket at the end. -/
def dictAppend (k : String) (m : Msg) :
    List (String × List Msg) → List (String × List Msg)
  | [] => [(k, [m])]
  | kv :: rest =>
    if kv.1 = k then (kv.1, kv.2 ++ [m]) :: rest else kv :: dictAppend k m rest

/-- The per-channel bucketing loop of `output`: rewrite the download
token (when configured), then group messages by date key, preserving
retrieval order within each bucket. -/
def bucketMsgs (tok : Option String) :
    List Msg → List (String × List Msg) → List (String × List Msg)
  | [], acc => acc
  | m :: ms, acc =>
    let m2 := match tok with
      | none => m
      | some t => append_download_token t m
    bucketMsgs tok ms (dictAppend (dateKey m2.ts) m2 acc)

/-- Python dict lookup `messages[name]` / membership
`name in messages`. -/
def dictGet (k : String) : List (String × List Msg) → Option (List Msg)
  | [] => none
  | kv :: rest => if kv.1 = k then some kv.2 else dictGet k rest

/-- The per-channel part of `output`: create the channel directory; if
the channel's name has an entry in the message mapping, bucket its
messages and write one file per date key. -/
def writeChannelT (dest : String) (tok : Option String)
    (msgs : List (String × List Msg)) (c : Channel) : List Ev :=
  Ev.mkdir (dest ++ "/" ++ c.meta.name) ::
    match dictGet c.meta.name msgs with
    | none => []
    | some ms =>
      (bucketMsgs tok ms []).map
        (fun kv => Ev.write (dest ++ "/" ++ c.meta.name ++ "/" ++ kv.1 ++ ".json")
          (FileContent.msgs kv.2))

/-- `output(dest, channels, users, messages, download_token)`: create the
destination directory, write `channels.json` and `users.json`, then
process each channel in order. -/
def outputT (dest : String) (chs : List Channel) (us : List UserRec)
    (msgs : List (String × List Msg)) (tok : Option String) : List Ev :=
  Ev.mkdir dest ::
  Ev.write (dest ++ "/channels.json") (FileContent.chans chs) ::
  Ev.write (dest ++ "/users.json") (FileContent.userList us) ::
  (chs.map (writeChannelT dest tok msgs)).flatten

/-- `main`: auth check, channel retrieval, user retrieval, message
collection for channels containing the caller, then output.  The result
is the run's outcome paired with the full event trace; `none` = some
loop ran out of fuel. -/
def runExport (api : Api) (dest : String) (tok : Option String)
    (fuel : Nat) : Option (Except RunError Unit × List Ev) :=
  match api.auth_test with
  | Except.error s => some (Except.error (RunError.transport s), [Ev.auth])
  | Except.ok u =>
    if u.ok then
      match get_channelsT api fuel with
      | none => none
      | some (Except.error e, evs1) => some (Except.error e, Ev.auth :: evs1)
      | some (Except.ok chs, evs1) =>
        match get_usersT api fuel with
        | none => none
        | some (Except.error e, evs2) =>
          some (Except.error e, Ev.auth :: evs1 ++ evs2)
        | some (Except.ok us, evs2) =>
          match collectMessagesT api fuel u.user_id chs [] with
          | none => none
          | some (Except.error e, evs3) =>
            some (Except.error e, Ev.auth :: evs1 ++ evs2 ++ evs3)
          | some (Except.ok msgs, evs3) =>
            some (Except.ok (),
              Ev.auth :: evs1 ++ evs2 ++ evs3 ++ outputT dest chs us msgs tok)
    else some (Except.error RunError.tokenInvalid, [Ev.auth])

/-- A well-behaved two-page member endpoint: the cursor-less first call
returns `["U1"]` with next cursor `page2`; the call at cursor `page2`
returns `["U2"]` with an empty next cursor. -/
def memberApiTwoPages : Option String → Except Nat (Page String) :=
  fun cur => match cur with
    | none => Except.ok ⟨true, ["U1"], "page2"⟩
    | some c => if c = "page2" then Except.ok ⟨true, ["U2"], ""⟩
                else Except.ok ⟨true, [], ""⟩

/-- Concrete oracle for the C3 witness: member retrieval fails with HTTP
status 500 for channel `C1` and succeeds for channel `C2`. -/
def chanBad : ChanMeta := ⟨"C1", "bad", false⟩

def chanGood : ChanMeta := ⟨"C2", "good", false⟩

def apiC3 : Api :=
  ⟨Except.ok ⟨true, "U1"⟩,
   fun _ => Except.ok ⟨true, [chanBad, chanGood], ""⟩,
   fun ch _ => if ch = "C1" then Except.error 500
               else Except.ok ⟨true, ["U1"], ""⟩,
   fun _ _ => Except.ok ⟨true, [], false, ""⟩,
   fun _ => Except.ok ⟨true, ["U1"], ""⟩⟩

/-- Concrete oracle for the C6 witness: one archived and one active
channel. -/
def chanArch : ChanMeta := ⟨"CA", "old", true⟩

def apiC6 : Api :=
  ⟨Except.ok ⟨true, "U1"⟩,
   fun _ => Except.ok ⟨true, [chanArch, chanGood], ""⟩,
   fun _ _ => Except.ok ⟨true, ["U1"], ""⟩,
   fun _ _ => Except.ok ⟨true, [], false, ""⟩,
   fun _ => Except.ok ⟨true, ["U1"], ""⟩⟩

/-- The finite chain of pages the history loop walks: every page is
`ok`; intermediate pages have `has_more = true` and a non-empty next
cursor, which the next request passes; the final page either has
`has_more = false` (its cursor value is irrelevant) or carries an empty
next cursor. -/
inductive HChain (call : Option String → Except Nat HistPage) :
    Option String → List HistPage → Prop
  | last : ∀ cur p, cur ≠ some ("") → call cur = Except.ok p → p.ok = true →
      (p.has_more = false ∨ p.next_cursor = "") → HChain call cur [p]
  | step : ∀ cur p ps, cur ≠ some ("") → call cur = Except.ok p → p.ok = true →
      p.has_more = true → p.next_cursor ≠ "" →
      HChain call (some p.next_cursor) ps → HChain call cur (p :: ps)

/-- The cursor parameter passed for each page along a chain. -/
def histCursors : Option String → List HistPage → List (Option String)
  | _, [] => []
  | cur, p :: ps =>
    cur :: histCursors (some (if p.has_more then p.next_cursor else "")) ps

/-- A degenerate history page: `has_more` is true but the next cursor is
the empty string. -/
def histStuckPage : HistPage := ⟨true, [⟨0, "m0", none⟩], true, ""⟩

def histStuck : Option String → Except Nat HistPage :=
  fun _ => Except.ok histStuckPage

/-- A two-page history: the first page has `has_more = true` with
cursor `c2`; the second has `has_more = false` while still carrying a
(ignored) non-empty cursor. -/
def histPage1 : HistPage := ⟨true, [⟨0, "m1", none⟩], true, "c2"⟩

def histPage2 : HistPage := ⟨true, [⟨5, "m2", none⟩], false, "IGNORED"⟩

def histTwoPages : Option String → Except Nat HistPage :=
  fun cur => match cur with
    | none => Except.ok histPage1
    | some c => if c = "c2" then Except.ok histPage2
                else Except.ok ⟨false, [], false, ""⟩

/-- Concrete oracle for the C5 witness: the caller `U1` is a member of
`general` (id `C1`) but not of `random` (id `C3`). -/
def chanIn : ChanMeta := ⟨"C1", "general", false⟩

def chanOut : ChanMeta := ⟨"C3", "random", false⟩

def apiC5 : Api :=
  ⟨Except.ok ⟨true, "U1"⟩,
   fun _ => Except.ok ⟨true, [chanIn, chanOut], ""⟩,
   fun ch _ => if ch = "C1" then Except.ok ⟨true, ["U1"], ""⟩
               else Except.ok ⟨true, ["U9"], ""⟩,
   fun _ _ => Except.ok ⟨true, [⟨0, "hi", none⟩], false, ""⟩,
   fun _ => Except.ok ⟨true, ["U1"], ""⟩⟩

def apiAuthFail : Api :=
  ⟨Except.ok ⟨false, "U0"⟩,
   fun _ => Except.error 0,
   fun _ _ => Except.error 0,
   fun _ _ => Except.error 0,
   fun _ => Except.error 0⟩

/-- Concrete oracle on which member retrieval hits HTTP status 500. -/
def apiC4 : Api :=
  ⟨Except.ok ⟨true, "U1"⟩,
   fun _ => Except.ok ⟨true, [chanIn], ""⟩,
   fun _ _ => Except.error 500,
   fun _ _ => Except.ok ⟨true, [⟨0, "hi", none⟩], false, ""⟩,
   fun _ => Except.ok ⟨true, ["U1"], ""⟩⟩

/-- Concrete oracle whose channel-list endpoint returns HTTP 502. -/
def apiListDead : Api :=
  ⟨Except.ok ⟨true, "U1"⟩,
   fun _ => Except.error 502,
   fun _ _ => Except.error 502,
   fun _ _ => Except.error 502,
   fun _ => Except.error 502⟩

def imgFile : FileObj := ⟨"image/png", [(64, "u64"), (1024, "u1024"), (50, "u50")]⟩

def pdfFile : FileObj := ⟨"application/pdf", [(64, "v64")]⟩

/-- Concrete oracle for the C10 witness: two channels named `dup`, both
containing the caller, with distinct single-message histories. -/
def mA : Msg := ⟨0, "first", none⟩

def mB : Msg := ⟨0, "second", none⟩

def chanDup1 : Channel := ⟨⟨"C1", "dup", false⟩, ["U1"]⟩

def chanDup2 : Channel := ⟨⟨"C2", "dup", false⟩, ["U1"]⟩

def api10 : Api :=
  ⟨Except.ok ⟨true, "U1"⟩,
   fun _ => Except.ok ⟨true, [chanDup1.meta, chanDup2.meta], ""⟩,
   fun _ _ => Except.ok ⟨true, ["U1"], ""⟩,
   fun ch _ => if ch = "C1" then Except.ok ⟨true, [mA], false, ""⟩
               else Except.ok ⟨true, [mB], false, ""⟩,
   fun _ => Except.ok ⟨true, ["U1"], ""⟩⟩

/-! ## Helper lemmas about the member loop -/

/-- Once the member loop is past its first iteration with a first page
that is `ok` and carries a non-empty cursor, it never terminates: the
source calls `conversations_members` without the cursor, so every
iteration re-fetches the same first page. -/
lemma membersLoopT_stuck (call : Option String → Except Nat (Page String))
    (mk : Option String → Ev) (p : Page String)
    (h : call none = Except.ok p) (hok : p.ok = true) (hc : p.next_cursor ≠ "") :
    ∀ fuel acc, membersLoopT call mk fuel (some p.next_cursor) acc = none := by
  intro fuel
  induction fuel with
  | zero => intro acc; simp [membersLoopT, hc]
  | succ n ih => intro acc; simp [membersLoopT, hc, h, hok, ih]

/-- From a state reachable after a successful first page, the member
loop can only finish without an error: the call is deterministic, so a
page that succeeded once succeeds every time it is re-fetched. -/
lemma membersLoopT_post_ok (call : Option String → Except Nat (Page String))
    (mk : Option String → Ev) (p : Page String)
    (h : call none = Except.ok p) (hok : p.ok = true) :
    ∀ fuel acc r evs,
      membersLoopT call mk fuel (some p.next_cursor) acc = some (r, evs) →
      r.2 = none := by
  intro fuel
  induction fuel with
  | zero =>
    intro acc r evs hr
    by_cases hc : p.next_cursor = ""
    · simp [membersLoopT, hc] at hr
      simp [← hr.1]
    · simp [membersLoopT, hc] at hr
  | succ n ih =>
    intro acc r evs hr
    by_cases hc : p.next_cursor = ""
    · simp [membersLoopT, hc] at hr
      simp [← hr.1]
    · simp only [membersLoopT] at hr
      rw [if_neg (by simp [hc])] at hr
      rw [h] at hr
      simp only [hok, if_true] at hr
      rcases h2 : membersLoopT call mk n (some p.next_cursor) (acc ++ p.items) with _ | ⟨r2, evs2⟩
      · rw [h2] at hr; exact absurd hr (by simp)
      · rw [h2] at hr
        simp at hr
        rcases hr with ⟨h3, _⟩
        exact h3 ▸ ih (acc ++ p.items) r2 evs2 h2

/-- If the member loop reports a failure, the failure happened on the
very first call: no members were accumulated and exactly one request was
made. -/
lemma membersLoopT_err_nil (call : Option String → Except Nat (Page String))
    (mk : Option String → Ev) (fuel : Nat) (acc2 : List String)
    (e : RunError) (evs : List Ev)
    (h : membersLoopT call mk fuel none [] = some ((acc2, some e), evs)) :
    acc2 = [] ∧ evs = [mk none] := by
  cases fuel with
  | zero => simp [membersLoopT] at h
  | succ n =>
    simp only [membersLoopT] at h
    rw [if_neg (by simp)] at h
    rcases hcall : call none with s | p
    · rw [hcall] at h
      simp at h
      exact ⟨h.1.1, h.2.symm⟩
    · rw [hcall] at h
      by_cases hok : p.ok
      · simp only [hok, if_true] at h
        rcases h2 : membersLoopT call mk n (some p.next_cursor) ([] ++ p.items) with _ | ⟨r2, evs2⟩
        · rw [h2] at h; exact absurd h (by simp)
        · rw [h2] at h
          simp at h
          have := membersLoopT_post_ok call mk p hcall hok n ([] ++ p.items) r2 evs2 h2
          rw [h.1] at this
          simp at this
      · simp only [hok, if_false] at h
        simp at h
        exact ⟨h.1.1, h.2.symm⟩

/-- Every event recorded by the member loop is a cursor-less request:
the source never passes the pagination cursor to
`conversations_members`. -/
lemma membersLoopT_events (call : Option String → Except Nat (Page String))
    (mk : Option String → Ev) :
    ∀ fuel cur acc r evs,
      membersLoopT call mk fuel cur acc = some (r, evs) →
      ∀ e ∈ evs, e = mk none := by
  intro fuel
  induction fuel with
  | zero =>
    intro cur acc r evs h
    by_cases hc : cur = some ("")
    · simp [membersLoopT, hc] at h
      rcases h with ⟨h1, h2⟩
      subst h2
      intro e he
      exact absurd he (by simp)
    · simp [membersLoopT, hc] at h
  | succ n ih =>
    intro cur acc r evs h
    by_cases hc : cur = some ("")
    · simp [membersLoopT, hc] at h
      rcases h with ⟨h1, h2⟩
      subst h2
      intro e he
      exact absurd he (by simp)
    · simp only [membersLoopT] at h
      rw [if_neg hc] at h
      rcases hcall : call none with s | p
      · rw [hcall] at h
        simp at h
        rcases h with ⟨h1, h2⟩
        subst h2
        intro e he
        simp at he
        simp [he]
      · rw [hcall] at h
        by_cases hok : p.ok
        · simp only [hok, if_true] at h
          rcases h2 : membersLoopT call mk n (some p.next_cursor) (acc ++ p.items) with _ | ⟨r2, evs2⟩
          · rw [h2] at h; exact absurd h (by simp)
          · rw [h2] at h
            simp at h
            rcases h with ⟨h1, h3⟩
            subst h3
            intro e he
            rcases List.mem_cons.mp he with he1 | he2
            · exact he1
            · exact ih _ _ _ _ h2 e he2
        · simp only [hok, if_false] at h
          simp at h
          rcases h with ⟨h1, h2⟩
          subst h2
          intro e he
          simp at he
          simp [he]

/-! ## Helper lemmas about the channel loop and the generic cursor loop -/

/-- Every event recorded by the generic cursor loop is one of its own
tagged requests. -/
lemma fetchPagesT_events {α : Type} (call : Option String → Except Nat (Page α))
    (mk : Option String → Ev) :
    ∀ fuel cur acc r evs,
      fetchPagesT call mk fuel cur acc = some (r, evs) →
      ∀ e ∈ evs, ∃ c2, e = mk c2 := by
  intro fuel
  induction fuel with
  | zero =>
    intro cur acc r evs h
    by_cases hc : cur = some ("")
    · simp [fetchPagesT, hc] at h
      rcases h with ⟨h1, h2⟩
      subst h2
      intro e he
      exact absurd he (by simp)
    · simp [fetchPagesT, hc] at h
  | succ n ih =>
    intro cur acc r evs h
    by_cases hc : cur = some ("")
    · simp [fetchPagesT, hc] at h
      rcases h with ⟨h1, h2⟩
      subst h2
      intro e he
      exact absurd he (by simp)
    · simp only [fetchPagesT] at h
      rw [if_neg hc] at h
      rcases hcall : call cur with s | p
      · rw [hcall] at h
        simp at h
        rcases h with ⟨h1, h2⟩
        subst h2
        intro e he
        simp at he
        exact ⟨cur, he⟩
      · rw [hcall] at h
        by_cases hok : p.ok
        · simp only [hok, if_true] at h
          rcases h2 : fetchPagesT call mk n (some p.next_cursor) (acc ++ p.items) with _ | ⟨r2, evs2⟩
          · rw [h2] at h; exact absurd h (by simp)
          · rw [h2] at h
            simp at h
            rcases h with ⟨h1, h3⟩
            subst h3
            intro e he
            rcases List.mem_cons.mp he with he1 | he2
            · exact ⟨cur, he1⟩
            · exact ih _ _ _ _ h2 e he2
        · simp only [hok, if_false] at h
          simp at h
          rcases h with ⟨h1, h2⟩
          subst h2
          intro e he
          simp at he
          exact ⟨cur, he⟩

/-- If every channel's member-retrieval step terminates within the
fuel, the channel loop terminates. -/
lemma chansLoop_some (api : Api) (fuel : Nat) :
    ∀ metas : List ChanMeta,
      (∀ c ∈ metas, (setMembersT api fuel c).isSome = true) →
      (chansLoop api fuel metas).isSome = true := by
  intro metas
  induction metas with
  | nil => intro _; simp [chansLoop]
  | cons c cs ih =>
    intro hall
    have hc := hall c (by simp)
    rcases h1 : setMembersT api fuel c with _ | ⟨ch, evs⟩
    · rw [h1] at hc; simp at hc
    · have hcs := ih (fun c2 hc2 => hall c2 (by simp [hc2]))
      rcases h2 : chansLoop api fuel cs with _ | ⟨chs, evs2⟩
      · rw [h2] at hcs; simp at hcs
      · simp [chansLoop, h1, h2]

/-- Pointwise characterization of the channel loop: each output channel
is exactly the member-retrieval result of the input channel at the same
position, and every event in its trace comes from some input channel's
member-retrieval step. -/
lemma chansLoop_points (api : Api) (fuel : Nat) :
    ∀ (metas : List ChanMeta) (chs : List Channel) (evs : List Ev),
      chansLoop api fuel metas = some (chs, evs) →
      chs.length = metas.length
      ∧ (∀ (j : Nat) (c : ChanMeta), metas[j]? = some c →
          ∃ ch evsc, setMembersT api fuel c = some (ch, evsc) ∧ chs[j]? = some ch)
      ∧ (∀ e ∈ evs, ∃ c ∈ metas, ∃ ch evsc,
          setMembersT api fuel c = some (ch, evsc) ∧ e ∈ evsc) := by
  intro metas
  induction metas with
  | nil =>
    intro chs evs h
    simp [chansLoop] at h
    rcases h with ⟨h1, h2⟩
    subst h1; subst h2
    refine ⟨by simp, fun j c hj => by simp at hj, fun e he => absurd he (by simp)⟩
  | cons c cs ih =>
    intro chs evs h
    simp only [chansLoop] at h
    rcases h1 : setMembersT api fuel c with _ | ⟨ch, evsc⟩
    · rw [h1] at h; exact absurd h (by simp)
    · rw [h1] at h
      rcases h2 : chansLoop api fuel cs with _ | ⟨chs2, evs2⟩
      · rw [h2] at h; exact absurd h (by simp)
      · rw [h2] at h
        simp at h
        rcases h with ⟨h3, h4⟩
        subst h3; subst h4
        rcases ih chs2 evs2 h2 with ⟨ihl, ihp, ihe⟩
        refine ⟨by simp [ihl], ?_, ?_⟩
        · intro j c2 hj
          cases j with
          | zero =>
            simp at hj
            subst hj
            exact ⟨ch, evsc, h1, by simp⟩
          | succ j2 =>
            simp at hj
            rcases ihp j2 c2 (by simpa using hj) with ⟨ch2, evsc2, hs, hg⟩
            exact ⟨ch2, evsc2, hs, by simpa using hg⟩
        · intro e he
          rcases List.mem_append.mp he with he1 | he2
          · exact ⟨c, by simp, ch, evsc, h1, he1⟩
          · rcases ihe e he2 with ⟨c2, hc2, ch2, evsc2, hs, hin⟩
            exact ⟨c2, by simp [hc2], ch2, evsc2, hs, hin⟩

/-! ## C1: the member loop never advances the cursor -/

/-- C1: the claim fails on the per-channel member loop.  On a two-page
member list the source's loop never terminates for any amount of fuel,
because `conversations_members` is called without the cursor and keeps
re-fetching the first page; by contrast, the cursor-exhaustion loop used
for channels and users (which does pass the cursor) returns the
concatenation of both pages and stops exactly at the empty cursor. -/
theorem c1_member_loop_never_terminates :
    (∀ fuel, membersLoopT memberApiTwoPages (Ev.membersCall ("CH"))
        fuel none [] = none)
    ∧ fetchPagesT memberApiTwoPages (Ev.membersCall ("CH")) 2 none []
      = some (Except.ok ["U1", "U2"],
          [Ev.membersCall ("CH") none, Ev.membersCall ("CH") (some ("page2"))]) := by
  constructor
  · intro fuel
    cases fuel with
    | zero => simp [membersLoopT]
    | succ n =>
      have hstuck := membersLoopT_stuck memberApiTwoPages (Ev.membersCall ("CH"))
        ⟨true, ["U1"], "page2"⟩ rfl rfl (by decide)
      simp [membersLoopT, memberApiTwoPages, hstuck]
  · rfl

/-! ## C3: a member-retrieval failure is isolated to its channel -/

/-- C3: if any failure (transport or API-level) is raised during one
channel's member retrieval, `get_channels` still succeeds, the affected
channel keeps an empty member list, and every channel's member-retrieval
outcome is exactly its own `setMembersT` result, unaffected by the
failing channel. -/
theorem c3_member_failure_isolated (api : Api) (fuel : Nat)
    (metas : List ChanMeta) (evsL : List Ev) (c : ChanMeta) (j : Nat)
    (acc : List String) (e : RunError) (evsm : List Ev)
    (hlist : fetchPagesT api.conversations_list Ev.listCall fuel none []
      = some (Except.ok metas, evsL))
    (hall : ∀ c2 ∈ metas, (setMembersT api fuel c2).isSome = true)
    (hj : metas[j]? = some c)
    (harch : c.is_archived = false)
    (hfail : membersLoopT (api.conversations_members c.id) (Ev.membersCall c.id)
        fuel none [] = some ((acc, some e), evsm)) :
    ∃ chs evsM, get_channelsT api fuel = some (Except.ok chs, evsL ++ evsM)
      ∧ chs.length = metas.length
      ∧ chs[j]? = some ⟨c, []⟩
      ∧ (∀ (i : Nat) (c2 : ChanMeta), metas[i]? = some c2 →
          ∃ ch evsc, setMembersT api fuel c2 = some (ch, evsc) ∧ chs[i]? = some ch) := by
  have hsome := chansLoop_some api fuel metas hall
  rcases hloop : chansLoop api fuel metas with _ | ⟨chs, evsM⟩
  · rw [hloop] at hsome; simp at hsome
  · rcases chansLoop_points api fuel metas chs evsM hloop with ⟨hlen, hpts, _⟩
    refine ⟨chs, evsM, by simp [get_channelsT, hlist, hloop], hlen, ?_, hpts⟩
    rcases membersLoopT_err_nil _ _ _ _ _ _ hfail with ⟨hacc, _⟩
    subst hacc
    rcases hpts j c hj with ⟨ch, evsc, hs, hg⟩
    have hset : setMembersT api fuel c = some (⟨c, []⟩, evsm) := by
      simp [setMembersT, harch, hfail]
    rw [hset] at hs
    simp at hs
    rw [hg, hs.1]

theorem c3_witness :
    get_channelsT apiC3 1 = some (Except.ok [⟨chanBad, []⟩, ⟨chanGood, ["U1"]⟩],
      [Ev.listCall none, Ev.membersCall ("C1") none, Ev.membersCall ("C2") none])
    ∧ ([⟨chanBad, []⟩, ⟨chanGood, ["U1"]⟩] : List Channel)[0]? = some ⟨chanBad, []⟩ := by
  obtain ⟨chs, evsM, h1, h2, h3, h4⟩ :=
    c3_member_failure_isolated apiC3 1 [chanBad, chanGood] [Ev.listCall none] chanBad 0
      [] (RunError.transport 500) [Ev.membersCall ("C1") none]
      rfl (by decide) rfl rfl rfl
  have hconc : get_channelsT apiC3 1 = some (Except.ok [⟨chanBad, []⟩, ⟨chanGood, ["U1"]⟩],
      [Ev.listCall none, Ev.membersCall ("C1") none, Ev.membersCall ("C2") none]) := rfl
  rw [hconc] at h1
  simp at h1
  refine ⟨hconc, ?_⟩
  rw [← h1.1] at h3
  exact h3

/-! ## C6: archived channels are skipped entirely -/

/-- C6: an archived channel always ends up with an empty member list,
and no `conversations.members` request for its id ever appears in the
trace of `get_channels` (assuming no distinct non-archived channel
shares its id). -/
theorem c6_archived_no_member_call (api : Api) (fuel : Nat)
    (metas : List ChanMeta) (evsL : List Ev) (chs : List Channel) (evsM : List Ev)
    (c : ChanMeta)
    (hlist : fetchPagesT api.conversations_list Ev.listCall fuel none []
      = some (Except.ok metas, evsL))
    (hloop : chansLoop api fuel metas = some (chs, evsM))
    (_hc : c ∈ metas) (harch : c.is_archived = true)
    (huniq : ∀ c2 ∈ metas, c2.id = c.id → c2.is_archived = true) :
    get_channelsT api fuel = some (Except.ok chs, evsL ++ evsM)
    ∧ (∀ j : Nat, metas[j]? = some c → chs[j]? = some ⟨c, []⟩)
    ∧ (∀ cur, Ev.membersCall c.id cur ∉ evsL ++ evsM) := by
  rcases chansLoop_points api fuel metas chs evsM hloop with ⟨hlen, hpts, hevs⟩
  refine ⟨by simp [get_channelsT, hlist, hloop], ?_, ?_⟩
  · intro j hj
    rcases hpts j c hj with ⟨ch, evsc, hs, hg⟩
    have hset : setMembersT api fuel c = some (⟨c, []⟩, []) := by
      simp [setMembersT, harch]
    rw [hset] at hs
    simp at hs
    rw [hg, hs.1]
  · intro cur hmem
    rcases List.mem_append.mp hmem with h1 | h2
    · rcases fetchPagesT_events _ _ _ _ _ _ _ hlist _ h1 with ⟨c2, he⟩
      exact absurd he (by simp)
    · rcases hevs _ h2 with ⟨c2, hc2, ch, evsc, hs, hin⟩
      by_cases har2 : c2.is_archived
      · simp [setMembersT, har2] at hs
        rw [hs.2] at hin
        exact absurd hin (by simp)
      · simp only [setMembersT, har2, if_false] at hs
        rcases hml : membersLoopT (api.conversations_members c2.id)
            (Ev.membersCall c2.id) fuel none [] with _ | ⟨r2, evs2⟩
        · rw [hml] at hs; exact absurd hs (by simp)
        · rw [hml] at hs
          rcases r2 with ⟨acc2, e2⟩
          simp at hs
          have hev := membersLoopT_events _ _ _ _ _ _ _ hml
            (Ev.membersCall c.id cur) (by rw [hs.2]; exact hin)
          simp at hev
          exact har2 (huniq c2 hc2 (by rw [← hev.1]))

theorem c6_witness :
    get_channelsT apiC6 1 = some (Except.ok [⟨chanArch, []⟩, ⟨chanGood, ["U1"]⟩],
      [Ev.listCall none] ++ [Ev.membersCall ("C2") none])
    ∧ ([⟨chanArch, []⟩, ⟨chanGood, ["U1"]⟩] : List Channel)[0]? = some ⟨chanArch, []⟩
    ∧ Ev.membersCall (chanArch.id) none ∉
        ([Ev.listCall none] ++ [Ev.membersCall ("C2") none] : List Ev) := by
  have h := c6_archived_no_member_call apiC6 1 [chanArch, chanGood] [Ev.listCall none]
    [⟨chanArch, []⟩, ⟨chanGood, ["U1"]⟩] [Ev.membersCall ("C2") none]
    chanArch rfl rfl (by decide) rfl (by decide)
  exact ⟨h.1, h.2.1 0 rfl, h.2.2 none⟩

/-! ## The history-page chain of `get_messages` -/

/-- Forward characterization of the history loop: along a chain, the
loop returns the in-order concatenation of every page's messages, and
the requests it makes are exactly the chain's cursors. -/
lemma messagesLoopT_chain (call : Option String → Except Nat HistPage)
    (mk : Option String → Ev) :
    ∀ (ps : List HistPage) (cur : Option String), HChain call cur ps →
      ∀ fuel acc, ps.length ≤ fuel →
        messagesLoopT call mk fuel cur acc
          = some (Except.ok (acc ++ (ps.map (fun p => p.messages)).flatten),
              (histCursors cur ps).map mk) := by
  intro ps cur h
  induction h with
  | last cur p hcur hcall hok hstop =>
    intro fuel acc hfuel
    cases fuel with
    | zero => simp at hfuel
    | succ n =>
      simp only [messagesLoopT]
      rw [if_neg hcur, hcall]
      simp only [hok, if_true]
      have hnext : (if p.has_more then p.next_cursor else "") = "" := by
        rcases hstop with h1 | h2
        · simp [h1]
        · simp [h2]
      rw [hnext]
      cases n with
      | zero => simp [messagesLoopT, histCursors, hnext]
      | succ m => simp [messagesLoopT, histCursors, hnext]
  | step cur p ps hcur hcall hok hmore hnc hchain ih =>
    intro fuel acc hfuel
    cases fuel with
    | zero => simp at hfuel
    | succ n =>
      simp only [messagesLoopT]
      rw [if_neg hcur, hcall]
      simp only [hok, if_true, hmore]
      rw [ih n (acc ++ p.messages) (by simp at hfuel; omega)]
      simp [histCursors, hmore]

/-- Converse characterization: whenever the history loop returns
normally, the pages it consumed form a chain, the result is their
concatenation, and the requests made are the chain's cursors. -/
lemma messagesLoopT_ok_chain (call : Option String → Except Nat HistPage)
    (mk : Option String → Ev) :
    ∀ fuel cur acc l evs, cur ≠ some ("") →
      messagesLoopT call mk fuel cur acc = some (Except.ok l, evs) →
      ∃ ps, HChain call cur ps
        ∧ l = acc ++ (ps.map (fun p => p.messages)).flatten
        ∧ evs = (histCursors cur ps).map mk := by
  intro fuel
  induction fuel with
  | zero =>
    intro cur acc l evs hcur h
    simp [messagesLoopT, hcur] at h
  | succ n ih =>
    intro cur acc l evs hcur h
    simp only [messagesLoopT] at h
    rw [if_neg hcur] at h
    rcases hcall : call cur with s | p
    · rw [hcall] at h; simp at h
    · rw [hcall] at h
      by_cases hok : p.ok
      · simp only [hok, if_true] at h
        rcases h2 : messagesLoopT call mk n
            (some (if p.has_more then p.next_cursor else "")) (acc ++ p.messages)
          with _ | ⟨r2, evs2⟩
        · rw [h2] at h; exact absurd h (by simp)
        · rw [h2] at h
          simp at h
          rcases h with ⟨hr2, hevs⟩
          by_cases hend : (if p.has_more then p.next_cursor else "") = ""
          · rw [hend] at h2
            have h3 : r2 = Except.ok (acc ++ p.messages) ∧ evs2 = ([] : List Ev) := by
              cases n with
              | zero =>
                simp [messagesLoopT] at h2
                exact ⟨h2.1.symm, h2.2⟩
              | succ m =>
                simp [messagesLoopT] at h2
                exact ⟨h2.1.symm, h2.2⟩
            have hstop : p.has_more = false ∨ p.next_cursor = "" := by
              by_cases hm : p.has_more
              · right; simpa [hm] using hend
              · left; simpa using hm
            refine ⟨[p], HChain.last cur p hcur hcall (by simpa using hok) hstop, ?_, ?_⟩
            · have h4 := hr2.symm.trans h3.1
              simp at h4
              simp [h4]
            · rw [← hevs]
              rw [h3.2]
              simp [histCursors, hend]
          · have hmore : p.has_more = true := by
              by_cases hm : p.has_more
              · simpa using hm
              · exact absurd (by simp [hm]) hend
            rw [hmore] at h2
            simp only [if_true] at h2
            have hnc : p.next_cursor ≠ "" := by
              intro hx
              exact hend (by simp [hmore, hx])
            have hcur2 : (some p.next_cursor : Option String) ≠ some ("") := by
              simpa using hnc
            rw [hr2] at h2
            rcases ih (some p.next_cursor) (acc ++ p.messages) l evs2 hcur2 h2
              with ⟨ps2, hchain, hl, hevs2⟩
            refine ⟨p :: ps2,
              HChain.step cur p ps2 hcur hcall (by simpa using hok) hmore hnc hchain, ?_, ?_⟩
            · simp [hl]
            · rw [← hevs, hevs2]
              simp [histCursors, hmore]
      · simp only [hok, if_false] at h
        simp at h

/-! ## C2 and C9: termination of the history loop -/

/-- C2 counterexample: the claim says iteration continues whenever
`has_more` is true, but on a page with `has_more = true` and an empty
next cursor the source's `while next_cursor != ""` test stops the loop
after a single request. -/
theorem c2_counterexample :
    histStuckPage.has_more = true
    ∧ messagesLoopT histStuck (Ev.historyCall ("CH")) 5 none []
      = some (Except.ok [⟨0, "m0", none⟩], [Ev.historyCall ("CH") none]) :=
  ⟨rfl, rfl⟩

/-- C2 (amended): the history loop stops exactly when a page has
`has_more = false` (regardless of the cursor value present on that
page) or carries an empty next cursor; while `has_more` is true and the
next cursor is non-empty, it continues with that cursor.  Stated as an
exact correspondence with `HChain` in both directions: the loop's
result and its request trace are determined by the chain, and any
normal return exhibits such a chain. -/
theorem c2_amended (call : Option String → Except Nat HistPage)
    (mk : Option String → Ev) :
    (∀ (ps : List HistPage) (fuel : Nat), HChain call none ps → ps.length ≤ fuel →
      messagesLoopT call mk fuel none []
        = some (Except.ok ((ps.map (fun p => p.messages)).flatten),
            (histCursors none ps).map mk))
    ∧ (∀ (fuel : Nat) (l : List Msg) (evs : List Ev),
        messagesLoopT call mk fuel none [] = some (Except.ok l, evs) →
        ∃ ps, HChain call none ps
          ∧ l = (ps.map (fun p => p.messages)).flatten
          ∧ evs = (histCursors none ps).map mk) := by
  constructor
  · intro ps fuel h hf
    simpa using messagesLoopT_chain call mk ps none h fuel [] hf
  · intro fuel l evs h
    rcases messagesLoopT_ok_chain call mk fuel none [] l evs (by simp) h
      with ⟨ps, hchain, hl, hevs⟩
    exact ⟨ps, hchain, by simpa using hl, hevs⟩

theorem c2_amended_witness :
    messagesLoopT histTwoPages (Ev.historyCall ("CH")) 2 none []
      = some (Except.ok [⟨0, "m1", none⟩, ⟨5, "m2", none⟩],
          [Ev.historyCall ("CH") none, Ev.historyCall ("CH") (some ("c2"))]) := by
  have hchain : HChain histTwoPages none [histPage1, histPage2] :=
    HChain.step none histPage1 [histPage2] (by decide) rfl rfl rfl (by decide)
      (HChain.last (some ("c2")) histPage2 (by decide) (by decide) rfl (Or.inl rfl))
  simpa using (c2_amended histTwoPages (Ev.historyCall ("CH"))).1
    [histPage1, histPage2] 2 hchain (by decide)

/-- C9: the messages of every page are appended before `has_more` is
examined, so the final page's messages (the page with `has_more =
false`) always end the list `get_messages` returns. -/
theorem c9_final_page_included (call : Option String → Except Nat HistPage)
    (mk : Option String → Ev) (ps : List HistPage) (p : HistPage)
    (h : HChain call none (ps ++ [p])) (_hlast : p.has_more = false) :
    ∀ fuel, (ps ++ [p]).length ≤ fuel →
      messagesLoopT call mk fuel none []
        = some (Except.ok ((ps.map (fun q => q.messages)).flatten ++ p.messages),
            (histCursors none (ps ++ [p])).map mk) := by
  intro fuel hf
  have h2 := messagesLoopT_chain call mk (ps ++ [p]) none h fuel [] hf
  simpa using h2

theorem c9_witness :
    messagesLoopT histTwoPages (Ev.historyCall ("CH")) 2 none []
      = some (Except.ok (([histPage1].map (fun q => q.messages)).flatten ++ histPage2.messages),
          (histCursors none ([histPage1] ++ [histPage2])).map (Ev.historyCall ("CH"))) := by
  have hchain : HChain histTwoPages none ([histPage1] ++ [histPage2]) :=
    HChain.step none histPage1 [histPage2] (by decide) rfl rfl rfl (by decide)
      (HChain.last (some ("c2")) histPage2 (by decide) (by decide) rfl (Or.inl rfl))
  exact c9_final_page_included histTwoPages (Ev.historyCall ("CH"))
    [histPage1] histPage2 hchain rfl 2 (by decide)

/-! ## C5: history is fetched iff the caller is a member -/

/-- Every event recorded by the history loop is one of its own tagged
requests. -/
lemma messagesLoopT_events (call : Option String → Except Nat HistPage)
    (mk : Option String → Ev) :
    ∀ fuel cur acc r evs,
      messagesLoopT call mk fuel cur acc = some (r, evs) →
      ∀ e ∈ evs, ∃ c2, e = mk c2 := by
  intro fuel
  induction fuel with
  | zero =>
    intro cur acc r evs h
    by_cases hc : cur = some ("")
    · simp [messagesLoopT, hc] at h
      rcases h with ⟨h1, h2⟩
      subst h2
      intro e he
      exact absurd he (by simp)
    · simp [messagesLoopT, hc] at h
  | succ n ih =>
    intro cur acc r evs h
    by_cases hc : cur = some ("")
    · simp [messagesLoopT, hc] at h
      rcases h with ⟨h1, h2⟩
      subst h2
      intro e he
      exact absurd he (by simp)
    · simp only [messagesLoopT] at h
      rw [if_neg hc] at h
      rcases hcall : call cur with s | p
      · rw [hcall] at h
        simp at h
        rcases h with ⟨h1, h2⟩
        subst h2
        intro e he
        simp at he
        exact ⟨cur, he⟩
      · rw [hcall] at h
        by_cases hok : p.ok
        · simp only [hok, if_true] at h
          rcases h2 : messagesLoopT call mk n
              (some (if p.has_more then p.next_cursor else "")) (acc ++ p.messages)
            with _ | ⟨r2, evs2⟩
          · rw [h2] at h; exact absurd h (by simp)
          · rw [h2] at h
            simp at h
            rcases h with ⟨h1, h3⟩
            subst h3
            intro e he
            rcases List.mem_cons.mp he with he1 | he2
            · exact ⟨cur, he1⟩
            · exact ih _ _ _ _ h2 e he2
        · simp only [hok, if_false] at h
          simp at h
          rcases h with ⟨h1, h2⟩
          subst h2
          intro e he
          simp at he
          exact ⟨cur, he⟩

/-- Whenever the history loop returns from a non-stop state, its first
recorded event is the request it made with the state's cursor. -/
lemma messagesLoopT_first (call : Option String → Except Nat HistPage)
    (mk : Option String → Ev) (fuel : Nat) (cur : Option String)
    (acc : List Msg) (r : Except RunError (List Msg)) (evs : List Ev)
    (hcur : cur ≠ some (""))
    (h : messagesLoopT call mk fuel cur acc = some (r, evs)) :
    ∃ rest, evs = mk cur :: rest := by
  cases fuel with
  | zero => simp [messagesLoopT, hcur] at h
  | succ n =>
    simp only [messagesLoopT] at h
    rw [if_neg hcur] at h
    rcases hcall : call cur with s | p
    · rw [hcall] at h
      simp at h
      exact ⟨[], h.2.symm⟩
    · rw [hcall] at h
      by_cases hok : p.ok
      · simp only [hok, if_true] at h
        rcases h2 : messagesLoopT call mk n
            (some (if p.has_more then p.next_cursor else "")) (acc ++ p.messages)
          with _ | ⟨r2, evs2⟩
        · rw [h2] at h; exact absurd h (by simp)
        · rw [h2] at h
          simp at h
          exact ⟨evs2, h.2.symm⟩
      · simp only [hok, if_false] at h
        simp at h
        exact ⟨[], h.2.symm⟩

/-- Dict membership after a Python-style dict assignment. -/
lemma dictSet_get_isSome (k name : String) (v : List Msg) :
    ∀ m : List (String × List Msg),
      (dictGet name (dictSet k v m)).isSome = true ↔
        (name = k ∨ (dictGet name m).isSome = true) := by
  intro m
  induction m with
  | nil =>
    by_cases hk : k = name
    · simp [dictSet, dictGet, hk]
    · have h3 : ¬name = k := fun hx => hk hx.symm
      simp [dictSet, dictGet, hk, h3]
  | cons kv rest ih =>
    by_cases h1 : kv.1 = k
    · by_cases h2 : kv.1 = name
      · simp [dictSet, dictGet, h1, h2, (h1.symm.trans h2 : k = name).symm]
      · have hnk : ¬ name = k := fun hx => h2 (h1.trans hx.symm)
        have hkn : ¬ k = name := fun hx => h2 (h1.trans hx)
        simp [dictSet, dictGet, h1, h2, hnk, hkn]
    · simp only [dictSet, h1, if_false]
      by_cases h2 : kv.1 = name
      · simp [dictGet, h2]
      · simp only [dictGet, h2, if_false]
        exact ih

/-- Full characterization of the message-collection loop, generalized
over the initial mapping: (1) every history request in the trace belongs
to a channel containing the caller; (2) every channel containing the
caller has its (cursor-less, first) history request in the trace;
(3) the final mapping has an entry for a name iff the initial one did or
some channel with that name contains the caller. -/
lemma collectMessagesT_char (api : Api) (fuel : Nat) (uid : String) :
    ∀ (chans : List Channel) (m0 : List (String × List Msg))
      (r : List (String × List Msg)) (evs : List Ev),
      collectMessagesT api fuel uid chans m0 = some (Except.ok r, evs) →
      (∀ (cid : String) (cur : Option String), Ev.historyCall cid cur ∈ evs →
        ∃ c ∈ chans, c.meta.id = cid ∧ uid ∈ c.members)
      ∧ (∀ c ∈ chans, uid ∈ c.members → Ev.historyCall (c.meta.id) none ∈ evs)
      ∧ (∀ name : String, (dictGet name r).isSome = true ↔
          ((dictGet name m0).isSome = true
            ∨ ∃ c ∈ chans, c.meta.name = name ∧ uid ∈ c.members)) := by
  intro chans
  induction chans with
  | nil =>
    intro m0 r evs h
    simp [collectMessagesT] at h
    rcases h with ⟨h1, h2⟩
    subst h1; subst h2
    refine ⟨?_, by simp, ?_⟩
    · intro cid cur hmem
      exact absurd hmem (by simp)
    · intro name
      simp
  | cons c cs ih =>
    intro m0 r evs h
    simp only [collectMessagesT] at h
    by_cases hm : uid ∈ c.members
    · rw [if_pos hm] at h
      rcases hget : get_messagesT api fuel c with _ | ⟨r1, evs1⟩
      · rw [hget] at h; exact absurd h (by simp)
      · rw [hget] at h
        rcases r1 with e1 | ms
        · simp at h
        · dsimp only at h
          rcases hrec : collectMessagesT api fuel uid cs (dictSet c.meta.name ms m0)
            with _ | ⟨r2, evs2⟩
          · rw [hrec] at h; exact absurd h (by simp)
          · rw [hrec] at h
            rcases r2 with e2 | m2
            · simp at h
            · simp at h
              rcases h with ⟨hr, hevs⟩
              subst hr
              rcases ih (dictSet c.meta.name ms m0) m2 evs2 hrec with ⟨ih1, ih2, ih3⟩
              refine ⟨?_, ?_, ?_⟩
              · intro cid cur hmem
                rw [← hevs] at hmem
                rcases List.mem_append.mp hmem with hin1 | hin2
                · rcases messagesLoopT_events _ _ _ _ _ _ _ hget _ hin1 with ⟨c2, he⟩
                  simp at he
                  exact ⟨c, by simp, by simp [he.1], hm⟩
                · rcases ih1 cid cur hin2 with ⟨c2, hc2, hid, hmem2⟩
                  exact ⟨c2, by simp [hc2], hid, hmem2⟩
              · intro c2 hc2 hm2
                rcases List.mem_cons.mp hc2 with he | hin
                · subst he
                  rcases messagesLoopT_first _ _ _ _ _ _ _ (by simp) hget with ⟨rest, hr⟩
                  rw [← hevs, hr]
                  simp
                · rw [← hevs]
                  exact List.mem_append.mpr (Or.inr (ih2 c2 hin hm2))
              · intro name
                rw [ih3 name, dictSet_get_isSome]
                constructor
                · intro hx
                  rcases hx with (hx1 | hx2) | hx3
                  · exact Or.inr ⟨c, by simp, hx1.symm, hm⟩
                  · exact Or.inl hx2
                  · rcases hx3 with ⟨c2, hc2, hn, hm2⟩
                    exact Or.inr ⟨c2, by simp [hc2], hn, hm2⟩
                · intro hx
                  rcases hx with hx1 | ⟨c2, hc2, hn, hm2⟩
                  · exact Or.inl (Or.inr hx1)
                  · rcases List.mem_cons.mp hc2 with he | hin
                    · subst he
                      exact Or.inl (Or.inl hn.symm)
                    · exact Or.inr ⟨c2, hin, hn, hm2⟩
    · rw [if_neg hm] at h
      rcases ih m0 r evs h with ⟨ih1, ih2, ih3⟩
      refine ⟨?_, ?_, ?_⟩
      · intro cid cur hmem
        rcases ih1 cid cur hmem with ⟨c2, hc2, hid, hmem2⟩
        exact ⟨c2, by simp [hc2], hid, hmem2⟩
      · intro c2 hc2 hm2
        rcases List.mem_cons.mp hc2 with he | hin
        · subst he; exact absurd hm2 hm
        · exact ih2 c2 hin hm2
      · intro name
        rw [ih3 name]
        constructor
        · intro hx
          rcases hx with hx1 | ⟨c2, hc2, hn, hm2⟩
          · exact Or.inl hx1
          · exact Or.inr ⟨c2, by simp [hc2], hn, hm2⟩
        · intro hx
          rcases hx with hx1 | ⟨c2, hc2, hn, hm2⟩
          · exact Or.inl hx1
          · rcases List.mem_cons.mp hc2 with he | hin
            · subst he; exact absurd hm2 hm
            · exact Or.inr ⟨c2, hin, hn, hm2⟩

/-- C5: in a run whose auth, channel and user phases succeed, a
channel's history is fetched iff the caller's `user_id` is in its member
list, and the name-keyed message mapping has an entry for a name iff
some channel with that name contains the caller. -/
theorem c5_history_iff_member (api : Api) (dest : String) (tok : Option String)
    (fuel : Nat) (u : AuthResp) (chs : List Channel) (us : List UserRec)
    (m : List (String × List Msg)) (evs1 evs2 evs3 : List Ev)
    (hauth : api.auth_test = Except.ok u) (huok : u.ok = true)
    (hchans : get_channelsT api fuel = some (Except.ok chs, evs1))
    (husers : get_usersT api fuel = some (Except.ok us, evs2))
    (hcoll : collectMessagesT api fuel u.user_id chs []
      = some (Except.ok m, evs3)) :
    runExport api dest tok fuel = some (Except.ok (),
      Ev.auth :: evs1 ++ evs2 ++ evs3 ++ outputT dest chs us m tok)
    ∧ (∀ (cid : String) (cur : Option String), Ev.historyCall cid cur ∈ evs3 →
        ∃ c ∈ chs, c.meta.id = cid ∧ u.user_id ∈ c.members)
    ∧ (∀ c ∈ chs, u.user_id ∈ c.members → Ev.historyCall (c.meta.id) none ∈ evs3)
    ∧ (∀ name : String, (dictGet name m).isSome = true ↔
        ∃ c ∈ chs, c.meta.name = name ∧ u.user_id ∈ c.members) := by
  rcases collectMessagesT_char api fuel u.user_id chs [] m evs3 hcoll
    with ⟨h1, h2, h3⟩
  refine ⟨?_, h1, h2, ?_⟩
  · simp [runExport, hauth, huok, hchans, husers, hcoll]
  · intro name
    rw [h3 name]
    simp [dictGet]

theorem c5_witness :
    Ev.historyCall ("C1") none ∈ ([Ev.historyCall ("C1") none] : List Ev)
    ∧ (dictGet ("general") [("general", [(⟨0, "hi", none⟩ : Msg)])]).isSome = true := by
  have h := c5_history_iff_member apiC5 ("out") none 1 ⟨true, "U1"⟩
    [⟨chanIn, ["U1"]⟩, ⟨chanOut, ["U9"]⟩] ["U1"]
    [("general", [⟨0, "hi", none⟩])]
    [Ev.listCall none, Ev.membersCall ("C1") none, Ev.membersCall ("C3") none]
    [Ev.usersCall none] [Ev.historyCall ("C1") none]
    rfl rfl rfl rfl rfl
  exact ⟨h.2.2.1 ⟨chanIn, ["U1"]⟩ (by decide) (by decide),
         (h.2.2.2 ("general")).mpr ⟨⟨chanIn, ["U1"]⟩, by decide, rfl, by decide⟩⟩

/-! ## C8: an invalid token aborts before anything else happens -/

/-- C8: if `auth.test` returns a body with `ok = false`, the run aborts
with the invalid-token error and its whole trace is the single auth
request: no channel, user or message retrieval is attempted and no file
or directory is created. -/
theorem c8_auth_failure_aborts_early (api : Api) (dest : String)
    (tok : Option String) (fuel : Nat) (u : AuthResp)
    (hauth : api.auth_test = Except.ok u) (hok : u.ok = false) :
    runExport api dest tok fuel
      = some (Except.error RunError.tokenInvalid, [Ev.auth]) := by
  simp [runExport, hauth, hok]

theorem c8_witness :
    runExport apiAuthFail ("out") none 5
      = some (Except.error RunError.tokenInvalid, [Ev.auth]) :=
  c8_auth_failure_aborts_early apiAuthFail ("out") none 5 ⟨false, "U0"⟩ rfl rfl

/-! ## C4: non-200 statuses are fatal except during member retrieval -/

/-- C4 counterexample: a non-200 status (500) is returned on a
`conversations.members` call actually made during the run (it is in the
trace), yet the run is not aborted: it completes and writes its output
files.  So "always fatal on every call of the run" is false. -/
theorem c4_counterexample :
    apiC4.conversations_members ("C1") none = Except.error 500
    ∧ runExport apiC4 ("out") none 1 = some (Except.ok (),
        [Ev.auth, Ev.listCall none, Ev.membersCall ("C1") none, Ev.usersCall none,
         Ev.mkdir ("out"),
         Ev.write ("out/channels.json") (FileContent.chans [⟨chanIn, []⟩]),
         Ev.write ("out/users.json") (FileContent.userList ["U1"]),
         Ev.mkdir ("out/general")])
    ∧ Ev.membersCall ("C1") none ∈
        [Ev.auth, Ev.listCall none, Ev.membersCall ("C1") none, Ev.usersCall none,
         Ev.mkdir ("out"),
         Ev.write ("out/channels.json") (FileContent.chans [⟨chanIn, []⟩]),
         Ev.write ("out/users.json") (FileContent.userList ["U1"]),
         Ev.mkdir ("out/general")] :=
  ⟨rfl, rfl, by decide⟩

/-- C4 (amended): a non-200 HTTP status aborts the enclosing operation
immediately (a single request, no retry) on the auth check, the channel
list, the user list and the message history, and a failing channel-list
phase aborts the whole run; the single exception is per-channel member
retrieval, where the error is caught and the channel is left with an
empty member list. -/
theorem c4_amended (api : Api) (dest : String) (tok : Option String) :
    (∀ (s fuel : Nat) (cur : Option String) (acc : List ChanMeta),
      cur ≠ some ("") → api.conversations_list cur = Except.error s →
      fetchPagesT api.conversations_list Ev.listCall (fuel + 1) cur acc
        = some (Except.error (RunError.transport s), [Ev.listCall cur]))
    ∧ (∀ (s fuel : Nat) (cur : Option String) (acc : List UserRec),
      cur ≠ some ("") → api.users_list cur = Except.error s →
      fetchPagesT api.users_list Ev.usersCall (fuel + 1) cur acc
        = some (Except.error (RunError.transport s), [Ev.usersCall cur]))
    ∧ (∀ (s fuel : Nat) (cid : String) (cur : Option String) (acc : List Msg),
      cur ≠ some ("") → api.conversations_history cid cur = Except.error s →
      messagesLoopT (api.conversations_history cid) (Ev.historyCall cid)
          (fuel + 1) cur acc
        = some (Except.error (RunError.transport s), [Ev.historyCall cid cur]))
    ∧ (∀ (s fuel : Nat), api.auth_test = Except.error s →
      runExport api dest tok fuel
        = some (Except.error (RunError.transport s), [Ev.auth]))
    ∧ (∀ (u : AuthResp) (fuel : Nat) (e : RunError) (evs : List Ev),
      api.auth_test = Except.ok u → u.ok = true →
      get_channelsT api fuel = some (Except.error e, evs) →
      runExport api dest tok fuel = some (Except.error e, Ev.auth :: evs))
    ∧ (∀ (s fuel : Nat) (c : ChanMeta), c.is_archived = false →
      api.conversations_members c.id none = Except.error s →
      setMembersT api (fuel + 1) c
        = some (⟨c, []⟩, [Ev.membersCall (c.id) none])) := by
  refine ⟨?_, ?_, ?_, ?_, ?_, ?_⟩
  · intro s fuel cur acc hcur herr
    simp [fetchPagesT, hcur, herr]
  · intro s fuel cur acc hcur herr
    simp [fetchPagesT, hcur, herr]
  · intro s fuel cid cur acc hcur herr
    simp [messagesLoopT, hcur, herr]
  · intro s fuel hauth
    simp [runExport, hauth]
  · intro u fuel e evs hauth huok hchans
    simp [runExport, hauth, huok, hchans]
  · intro s fuel c harch herr
    simp [setMembersT, harch, membersLoopT, herr]

theorem c4_amended_witness :
    fetchPagesT apiListDead.conversations_list Ev.listCall 3 none []
      = some (Except.error (RunError.transport 502), [Ev.listCall none])
    ∧ setMembersT apiC4 1 chanIn
      = some (⟨chanIn, []⟩, [Ev.membersCall ("C1") none]) :=
  ⟨(c4_amended apiListDead ("out") none).1 502 2 none [] (by decide) rfl,
   (c4_amended apiC4 ("out") none).2.2.2.2.2 500 0 chanIn rfl rfl⟩

/-! ## C7: download-token rewriting of image thumbnails -/

/-- A fold of per-element maps is the map of the per-element folds. -/
lemma foldl_map_general {β : Type} (g : Nat → β → β) :
    ∀ (sizes : List Nat) (L : List β),
      sizes.foldl (fun ths s => ths.map (g s)) L
        = L.map (fun x => sizes.foldl (fun x2 s => g s x2) x) := by
  intro sizes
  induction sizes with
  | nil => intro L; simp
  | cons s rest ih =>
    intro L
    simp only [List.foldl]
    rw [ih (L.map (g s)), List.map_map]
    rfl

/-- Evaluating the per-thumbnail fold on one key-value pair: the suffix
is appended exactly once iff the key occurs in the (duplicate-free) size
list. -/
lemma foldl_step_eval (tok : String) (k : Nat) (v : String) :
    ∀ sizes : List Nat, sizes.Nodup →
      sizes.foldl
          (fun x s => if x.1 = s then (x.1, x.2 ++ "?t=" ++ tok) else x) (k, v)
        = if k ∈ sizes then (k, v ++ "?t=" ++ tok) else (k, v) := by
  intro sizes
  induction sizes generalizing v with
  | nil => intro _; simp
  | cons s rest ih =>
    intro hnd
    rcases List.nodup_cons.mp hnd with ⟨hs, hrest⟩
    simp only [List.foldl]
    by_cases hk : k = s
    · subst hk
      rw [if_pos (by simp)]
      rw [ih _ hrest]
      simp [hs, List.mem_cons]
    · rw [if_neg (by simp [hk])]
      rw [ih _ hrest]
      simp [List.mem_cons, hk]

/-- On an image attachment, the rewriting is exactly: each thumbnail
entry whose size key is in the fixed list gets the token suffix; every
other entry, and the key set itself, is unchanged. -/
lemma appendTokenFile_thumbs (tok : String) (f : FileObj)
    (him : strStartsWith (f.mimetype) ("image") = true) :
    appendTokenFile tok f
      = FileObj.mk f.mimetype
          (f.thumbs.map (fun kv =>
            if kv.1 ∈ thumbSizes then (kv.1, kv.2 ++ "?t=" ++ tok) else kv)) := by
  have h2 := foldl_map_general
    (fun s kv => if kv.1 = s then (kv.1, kv.2 ++ "?t=" ++ tok) else kv)
    thumbSizes f.thumbs
  have h3 : ∀ kv ∈ f.thumbs,
      thumbSizes.foldl
          (fun x2 s => if x2.1 = s then (x2.1, x2.2 ++ "?t=" ++ tok) else x2) kv
        = if kv.1 ∈ thumbSizes then (kv.1, kv.2 ++ "?t=" ++ tok) else kv := by
    intro kv hkv
    rcases kv with ⟨k, v⟩
    exact foldl_step_eval tok k v thumbSizes (by decide)
  simp only [appendTokenFile, him, if_true]
  rw [h2, List.map_congr_left h3]

/-- C7: with a configured download token, an image attachment has the
`?t=<token>` suffix appended to exactly those thumbnail keys of the
fixed size set that are present (no key is added or removed); a
non-image attachment is left entirely unchanged; a message without
attachments is left unchanged, and one with attachments has exactly its
attachment list rewritten. -/
theorem c7_token_rewrite (tok : String) (f : FileObj) (m : Msg) :
    (strStartsWith (f.mimetype) ("image") = true →
      appendTokenFile tok f
        = FileObj.mk f.mimetype
            (f.thumbs.map (fun kv =>
              if kv.1 ∈ thumbSizes then (kv.1, kv.2 ++ "?t=" ++ tok) else kv)))
    ∧ (strStartsWith (f.mimetype) ("image") = false → appendTokenFile tok f = f)
    ∧ (m.files = none → append_download_token tok m = m)
    ∧ (∀ fs, m.files = some fs →
        append_download_token tok m
          = Msg.mk m.ts m.text (some (fs.map (appendTokenFile tok)))) := by
  refine ⟨?_, ?_, ?_, ?_⟩
  · intro him
    exact appendTokenFile_thumbs tok f him
  · intro him
    simp [appendTokenFile, him]
  · intro hf
    simp [append_download_token, hf]
  · intro fs hf
    simp [append_download_token, hf]

theorem c7_witness :
    appendTokenFile ("T") imgFile
      = ⟨"image/png", [(64, "u64?t=T"), (1024, "u1024?t=T"), (50, "u50")]⟩
    ∧ appendTokenFile ("T") pdfFile = pdfFile := by
  constructor
  · exact ((c7_token_rewrite ("T") imgFile ⟨0, "x", none⟩).1 (by decide)).trans (by decide)
  · exact (c7_token_rewrite ("T") pdfFile ⟨0, "x", none⟩).2.1 (by decide)

/-! ## C10: duplicate channel names -/

/-- Appending to a date bucket introduces no foreign message: every
message in the result was the appended one or was already in a bucket. -/
lemma dictAppend_mem :
    ∀ (acc : List (String × List Msg)) (k : String) (m : Msg)
      (e : String × List Msg),
      e ∈ dictAppend k m acc → ∀ x ∈ e.2,
        x = m ∨ ∃ e0 ∈ acc, x ∈ e0.2 := by
  intro acc
  induction acc with
  | nil =>
    intro k m e he x hx
    simp [dictAppend] at he
    subst he
    simp at hx
    exact Or.inl hx
  | cons kv rest ih =>
    intro k m e he x hx
    by_cases h1 : kv.1 = k
    · simp only [dictAppend, h1, if_true, List.mem_cons] at he
      rcases he with he1 | he2
      · subst he1
        simp at hx
        rcases hx with hx1 | hx2
        · exact Or.inr ⟨kv, by simp, hx1⟩
        · exact Or.inl hx2
      · exact Or.inr ⟨e, by simp [he2], hx⟩
    · simp only [dictAppend, h1, if_false, List.mem_cons] at he
      rcases he with he1 | he2
      · subst he1
        exact Or.inr ⟨e, by simp, hx⟩
      · rcases ih k m e he2 x hx with h2 | ⟨e0, he0, hx0⟩
        · exact Or.inl h2
        · exact Or.inr ⟨e0, by simp [he0], hx0⟩

/-- With no download token, every message in every date bucket comes
from the bucketed list or from the initial accumulator. -/
lemma bucketMsgs_mem :
    ∀ (ms : List Msg) (acc : List (String × List Msg))
      (e : String × List Msg),
      e ∈ bucketMsgs none ms acc → ∀ x ∈ e.2,
        x ∈ ms ∨ ∃ e0 ∈ acc, x ∈ e0.2 := by
  intro ms
  induction ms with
  | nil =>
    intro acc e he x hx
    exact Or.inr ⟨e, by simpa [bucketMsgs] using he, hx⟩
  | cons m ms2 ih =>
    intro acc e he x hx
    have he2 : e ∈ bucketMsgs none ms2 (dictAppend (dateKey m.ts) m acc) := by
      simpa [bucketMsgs] using he
    rcases ih _ e he2 x hx with h1 | ⟨e0, he0, hx0⟩
    · exact Or.inl (by simp [h1])
    · rcases dictAppend_mem acc (dateKey m.ts) m e0 he0 x hx0
        with h2 | ⟨e1, he1, hx1⟩
      · exact Or.inl (by simp [h2])
      · exact Or.inr ⟨e1, he1, hx1⟩

/-- C10: when two channels share a name and the caller is a member of
both, the name-keyed mapping retains only the history of the channel
fetched later, and in the output every date file (for either channel)
lives in the shared directory `dest/<name>/` and contains only messages
of the later channel's history. -/
theorem c10_duplicate_names (api : Api) (fuel : Nat) (uid dest : String)
    (c1 c2 : Channel) (H1 H2 : List Msg) (e1 e2 : List Ev) (us : List UserRec)
    (hname : c1.meta.name = c2.meta.name)
    (hm1 : uid ∈ c1.members) (hm2 : uid ∈ c2.members)
    (hg1 : get_messagesT api fuel c1 = some (Except.ok H1, e1))
    (hg2 : get_messagesT api fuel c2 = some (Except.ok H2, e2)) :
    collectMessagesT api fuel uid [c1, c2] []
      = some (Except.ok [(c1.meta.name, H2)], e1 ++ e2)
    ∧ (∀ (p : String) (ms : List Msg),
        Ev.write p (FileContent.msgs ms)
            ∈ outputT dest [c1, c2] us [(c1.meta.name, H2)] none →
        (∃ k, p = dest ++ "/" ++ c1.meta.name ++ "/" ++ k ++ ".json")
        ∧ ∀ x ∈ ms, x ∈ H2) := by
  constructor
  · simp [collectMessagesT, hm1, hm2, hg1, hg2, dictSet, hname]
  · intro p ms hw
    simp only [outputT, writeChannelT, hname, dictGet, if_pos rfl,
      List.map_cons, List.map_nil, List.flatten, List.mem_cons,
      List.mem_append, List.append_nil] at hw
    rcases hw with h1 | h2 | h3 | h4 | h5
    · exact absurd h1 (by simp)
    · exact absurd h2 (by simp)
    · exact absurd h3 (by simp)
    · rcases h4 with h4a | h4b
      · exact absurd h4a (by simp)
      · rcases List.mem_map.mp h4b with ⟨kb, hkb, heq⟩
        simp at heq
        refine ⟨⟨kb.1, by rw [hname]; exact heq.1.symm⟩, ?_⟩
        intro x hx
        rw [← heq.2] at hx
        rcases bucketMsgs_mem H2 [] kb hkb x hx with hin | ⟨e0, he0, _⟩
        · exact hin
        · exact absurd he0 (by simp)
    · rcases h5 with h5a | h5b
      · exact absurd h5a (by simp)
      · rcases List.mem_map.mp h5b with ⟨kb, hkb, heq⟩
        simp at heq
        refine ⟨⟨kb.1, by rw [hname]; exact heq.1.symm⟩, ?_⟩
        intro x hx
        rw [← heq.2] at hx
        rcases bucketMsgs_mem H2 [] kb hkb x hx with hin | ⟨e0, he0, _⟩
        · exact hin
        · exact absurd he0 (by simp)

theorem c10_witness :
    collectMessagesT api10 1 ("U1") [chanDup1, chanDup2] []
      = some (Except.ok [(("dup" : String), [mB])],
          [Ev.historyCall ("C1") none] ++ [Ev.historyCall ("C2") none]) :=
  (c10_duplicate_names api10 1 ("U1") ("out") chanDup1 chanDup2 [mA] [mB]
    [Ev.historyCall ("C1") none] [Ev.historyCall ("C2") none] ["U1"]
    rfl (by decide) (by decide) rfl rfl).1
